import Mathlib

/-!
Verification development for the lume image transformation service: a
shallow embedding of src/lume/rust (helpers.rs, api/image_ops.rs,
api/imageproc_ops.rs) together with proofs about the transform dispatch
contract and the content aware resizing (seam carving) engine.

The underlying codec and the imageproc primitives are external
collaborators of the Rust source; each definition that stands for one of
them carries a doc comment beginning with the words Modelled from the
spec and follows the behaviour the specification assigns to it.  Every
definition taken from the repository itself keeps the name and the
control flow of the Rust function it embeds.
-/

set_option linter.unusedVariables false

namespace Lume

/-- Error taxonomy of the service.  Modelled from the spec: the Rust source
carries untyped anyhow errors; the specification names the failure classes
(DecodeError, FormatUnknownError, EncodeError, UnsupportedFormatError,
OutOfBoundsError, InvalidDimensionError) and each modelled stage failure
is tagged with the class the specification assigns to it. -/
inductive LumeError
  | DecodeError
  | FormatUnknownError
  | EncodeError
  | UnsupportedFormatError (badName : String)
  | OutOfBoundsError
  | InvalidDimensionError
  deriving DecidableEq

/-- Container formats the Rust helpers recognize.  The image crate has
further variants (the source match in format_to_string has a wildcard
arm); the constructor named other stands for any detected format outside
the seven supported tags. -/
inductive ImageFormat
  | Png
  | Jpeg
  | Gif
  | WebP
  | Bmp
  | Tiff
  | Ico
  | other
  deriving DecidableEq

/-- Decoded pixel buffer: the RGBA8 grid the operations act on.  The source
converts buffers with to_rgba8 before any pixel work, so the model keeps
every buffer in the four channel RGBA layout; pix takes row, column and
channel.  The backing store of the image library always holds exactly
width times height times four subpixels by construction. -/
structure PixelBuffer where
  width : Nat
  height : Nat
  pix : Nat → Nat → Fin 4 → Nat

/-- Modelled from the spec: an encoded byte buffer.  The codec adapter is
an external collaborator; a buffer is abstracted as either a well formed
container (its detected format plus the pixel grid it decodes to) or
bytes that no supported signature matches. -/
inductive Bytes
  | valid (fmt : ImageFormat) (img : PixelBuffer)
  | invalid

/-- Modelled from the spec: decode fails with DecodeError when the bytes
do not parse as any supported container format. -/
def load : Bytes → Except LumeError PixelBuffer
  | .valid _ img => .ok img
  | .invalid => .error .DecodeError

/-- Modelled from the spec: format detection inspects magic bytes only and
fails with FormatUnknownError when no supported signature matches. -/
def detect_format : Bytes → Except LumeError ImageFormat
  | .valid fmt _ => .ok fmt
  | .invalid => .error .FormatUnknownError

/-- Modelled from the spec: re-encoding of a pixel buffer in a target
container format.  In the RGBA only model every channel layout is
representable, so on the data domain of the spec (buffers of positive
dimensions) encoding succeeds and yields bytes whose magic matches the
requested format; this total form abstracts exactly that success case of
the fallible helpers encode call of the source, whose error path,
including the rejection of zero width and zero height buffers by the
container writers, is modelled separately by encodeChecked. -/
def encode (img : PixelBuffer) (fmt : ImageFormat) : Bytes :=
  Bytes.valid fmt img

/-- Format guess of ImageReader.with_guessed_format: some format for a
recognized signature, none otherwise. -/
def guessFormat : Bytes → Option ImageFormat
  | .valid fmt _ => some fmt
  | .invalid => none

/-- Modelled from the spec: reading the dimensions of an encoded image;
the reader fails when the format cannot be determined. -/
def into_dimensions : Bytes → Except LumeError (Nat × Nat)
  | .valid _ img => .ok (img.width, img.height)
  | .invalid => .error .DecodeError

/-- Modelled from the spec: byte length of an encoded buffer; the codec
level size is abstracted as the pixel payload size. -/
def byteSize : Bytes → Nat
  | .valid _ img => 4 * (img.width * img.height)
  | .invalid => 0

/-- Modelled lowercasing of the Rust to_lowercase call, character by
character over the string data (the format and filter names at issue are
plain ASCII). -/
def lowerStr (s : String) : String :=
  ⟨s.data.map Char.toLower⟩

/-- Helper format_to_string from src/lume/rust/src/helpers.rs: the name of
a container format, with the wildcard arm of the source match mapping any
unsupported variant to the string unknown. -/
def format_to_string : ImageFormat → String
  | .Png => "png"
  | .Jpeg => "jpeg"
  | .Gif => "gif"
  | .WebP => "webp"
  | .Bmp => "bmp"
  | .Tiff => "tiff"
  | .Ico => "ico"
  | .other => "unknown"

/-- Helper string_to_format from src/lume/rust/src/helpers.rs: the
lowercased name is matched against the closed table; unrecognized names
fail with UnsupportedFormatError. -/
def string_to_format (s : String) : Except LumeError ImageFormat :=
  if lowerStr s = "png" then .ok .Png
  else if lowerStr s = "jpeg" ∨ lowerStr s = "jpg" then .ok .Jpeg
  else if lowerStr s = "gif" then .ok .Gif
  else if lowerStr s = "webp" then .ok .WebP
  else if lowerStr s = "bmp" then .ok .Bmp
  else if lowerStr s = "tiff" ∨ lowerStr s = "tif" then .ok .Tiff
  else if lowerStr s = "ico" then .ok .Ico
  else .error (.UnsupportedFormatError (lowerStr s))

/-- Structured metadata record returned by get_image_info. -/
structure LumeImageInfo where
  width : Nat
  height : Nat
  format : String
  size_bytes : Nat
  deriving DecidableEq

/-- Pixel colour record returned by get_pixel. -/
structure LumeColor where
  r : Nat
  g : Nat
  b : Nat
  a : Nat
  deriving DecidableEq

/-- Operation get_image_info from src/lume/rust/src/api/image_ops.rs: the
format name is taken from the guessed format and falls back to the string
unknown when no name is available; a dimension reading failure aborts the
call. -/
def get_image_info (image_bytes : Bytes) : Except LumeError LumeImageInfo :=
  let format := ((guessFormat image_bytes).map format_to_string).getD "unknown"
  match into_dimensions image_bytes with
  | .error e => .error e
  | .ok wh => .ok ⟨wh.1, wh.2, format, byteSize image_bytes⟩

/-- Resampling filter selector of the image library. -/
inductive FilterType
  | Nearest
  | Triangle
  | CatmullRom
  | Gaussian
  | Lanczos3
  deriving DecidableEq

/-- Filter name resolution inside resize_with_filter: the source match
maps the recognized names and sends every other string to Lanczos3. -/
def parseFilter (filter : String) : FilterType :=
  if lowerStr filter = "nearest" then .Nearest
  else if lowerStr filter = "triangle" ∨ lowerStr filter = "bilinear" then .Triangle
  else if lowerStr filter = "catmullrom" ∨ lowerStr filter = "cubic" then .CatmullRom
  else if lowerStr filter = "gaussian" then .Gaussian
  else if lowerStr filter = "lanczos" ∨ lowerStr filter = "lanczos3" then .Lanczos3
  else .Lanczos3

/-- Modelled from the spec: the resampling kernels are external floating
point collaborators; each one is abstracted as nearest neighbour sampling
to the requested grid.  No claim depends on differences between the
kernels, only on which FilterType the source selects. -/
def resample (filter : FilterType) (img : PixelBuffer) (w h : Nat) : PixelBuffer :=
  { width := w
    height := h
    pix := fun r c ch => img.pix (r * img.height / h) (c * img.width / w) ch }

/-- Modelled from the spec: aspect locked resize scales to fit within the
requested box preserving the ratio, keeping each dimension at least one. -/
def fitDimensions (sw sh bw bh : Nat) : Nat × Nat :=
  if bw * sh ≤ bh * sw then (bw, max 1 (sh * bw / sw))
  else (max 1 (sw * bh / sh), bh)

/-- Operation resize from src/lume/rust/src/api/image_ops.rs. -/
def resize (image_bytes : Bytes) (width height : Nat) (keepAspect : Bool) :
    Except LumeError Bytes :=
  match load image_bytes with
  | .error e => .error e
  | .ok img =>
    match detect_format image_bytes with
    | .error e => .error e
    | .ok fmt =>
      let resized :=
        if keepAspect then
          let wh := fitDimensions img.width img.height width height
          resample .Lanczos3 img wh.1 wh.2
        else resample .Lanczos3 img width height
      .ok (encode resized fmt)

/-- Operation resize_with_filter from src/lume/rust/src/api/image_ops.rs. -/
def resize_with_filter (image_bytes : Bytes) (width height : Nat) (filter : String) :
    Except LumeError Bytes :=
  match load image_bytes with
  | .error e => .error e
  | .ok img =>
    match detect_format image_bytes with
    | .error e => .error e
    | .ok fmt => .ok (encode (resample (parseFilter filter) img width height) fmt)

/-- Modelled from the spec: quarter turn clockwise rotation of the image
library. -/
def rotate90 (img : PixelBuffer) : PixelBuffer :=
  { width := img.height
    height := img.width
    pix := fun r c ch => img.pix (img.height - 1 - c) r ch }

/-- Modelled from the spec: half turn rotation of the image library. -/
def rotate180 (img : PixelBuffer) : PixelBuffer :=
  { width := img.width
    height := img.height
    pix := fun r c ch => img.pix (img.height - 1 - r) (img.width - 1 - c) ch }

/-- Modelled from the spec: quarter turn counterclockwise rotation of the
image library. -/
def rotate270 (img : PixelBuffer) : PixelBuffer :=
  { width := img.height
    height := img.width
    pix := fun r c ch => img.pix c (img.width - 1 - r) ch }

/-- Operation rotate from src/lume/rust/src/api/image_ops.rs: degrees are
normalized modulo 360 and only the three proper quarter turn values change
the buffer; every other residue leaves the decoded buffer untouched. -/
def rotate (image_bytes : Bytes) (degrees : Nat) : Except LumeError Bytes :=
  match load image_bytes with
  | .error e => .error e
  | .ok img =>
    match detect_format image_bytes with
    | .error e => .error e
    | .ok fmt =>
      let rotated :=
        if degrees % 360 = 90 then rotate90 img
        else if degrees % 360 = 180 then rotate180 img
        else if degrees % 360 = 270 then rotate270 img
        else img
      .ok (encode rotated fmt)

/-- Modelled from the spec: standard alpha blending of one RGBA pixel over
another, in integer arithmetic. -/
def blend (bot top : Fin 4 → Nat) : Fin 4 → Nat :=
  fun ch =>
    let aT := top 3
    let aB := bot 3
    let aOut := aT + aB * (255 - aT) / 255
    if ch = 3 then aOut
    else if aOut = 0 then 0
    else (top ch * aT + bot ch * aB * (255 - aT) / 255) / aOut

/-- Modelled from the spec: overlay pastes a second buffer onto a base at
a signed offset, compositing only the overlapping region. -/
def overlayAt (base top : PixelBuffer) (x y : Int) : PixelBuffer :=
  { width := base.width
    height := base.height
    pix := fun r c ch =>
      if 0 ≤ (r : Int) - y ∧ 0 ≤ (c : Int) - x ∧
          ((r : Int) - y).toNat < top.height ∧ ((c : Int) - x).toNat < top.width then
        blend (base.pix r c) (top.pix ((r : Int) - y).toNat ((c : Int) - x).toNat) ch
      else base.pix r c ch }

/-- Inner loop of tile: stamps the source image at every column origin of
row r of the tile grid. -/
def tileInner (img : PixelBuffer) (cols r : Nat) (acc : PixelBuffer) : PixelBuffer :=
  (List.range cols).foldl (fun acc2 c =>
    overlayAt acc2 img ((c * img.width : Nat) : Int)
      ((r * img.height : Nat) : Int)) acc

/-- Operation tile from src/lume/rust/src/api/image_ops.rs: builds a canvas
of size width times cols by height times rows and stamps the source image
at every tile origin, left to right, top to bottom. -/
def tile (image_bytes : Bytes) (cols rows : Nat) : Except LumeError Bytes :=
  match load image_bytes with
  | .error e => .error e
  | .ok img =>
    match detect_format image_bytes with
    | .error e => .error e
    | .ok fmt =>
      let canvas : PixelBuffer :=
        { width := img.width * cols
          height := img.height * rows
          pix := fun _ _ _ => 0 }
      let stamped :=
        (List.range rows).foldl (fun acc r => tileInner img cols r acc) canvas
      .ok (encode stamped fmt)

/-- Operation create_blank from src/lume/rust/src/api/image_ops.rs: a solid
RGBA buffer of the requested size, always encoded as PNG. -/
def create_blank (width height : Nat) (r g b a : Nat) : Except LumeError Bytes :=
  let img : PixelBuffer :=
    { width := width
      height := height
      pix := fun _ _ ch =>
        if ch = 0 then r else if ch = 1 then g else if ch = 2 then b else a }
  .ok (encode img ImageFormat.Png)

/-- Operation get_pixel from src/lume/rust/src/api/image_ops.rs.  The
source indexes the decoded RGBA buffer directly; the image library rejects
coordinates outside the grid, a rejection that surfaces to the caller as
the failure of the whole call, modelled as OutOfBoundsError. -/
def get_pixel (image_bytes : Bytes) (x y : Nat) : Except LumeError LumeColor :=
  match load image_bytes with
  | .error e => .error e
  | .ok img =>
    if x < img.width ∧ y < img.height then
      .ok ⟨img.pix y x 0, img.pix y x 1, img.pix y x 2, img.pix y x 3⟩
    else .error .OutOfBoundsError

/-- Operation convert_format from src/lume/rust/src/api/image_ops.rs. -/
def convert_format (image_bytes : Bytes) (target_format : String) :
    Except LumeError Bytes :=
  match load image_bytes with
  | .error e => .error e
  | .ok img =>
    match string_to_format target_format with
    | .error e => .error e
    | .ok fmt => .ok (encode img fmt)

/-- Modelled from the spec: conversion of an RGBA buffer to luminance, an
eight bit grid (values reduced modulo 256 at the machine width). -/
def luma (img : PixelBuffer) : Nat → Nat → Nat :=
  fun r c =>
    ((2126 * img.pix r c 0 + 7152 * img.pix r c 1 + 722 * img.pix r c 2) / 10000) % 256

/-- Index clamped to the valid range, replicating the border pixels. -/
def clampIdx (n : Nat) (i : Int) : Nat :=
  if i < 0 then 0 else min i.toNat (n - 1)

/-- Border replicated sample of a luminance grid, as an integer. -/
def sampleAt (g : Nat → Nat → Nat) (w h : Nat) (r c : Int) : Int :=
  (g (clampIdx h r) (clampIdx w c) : Int)

/-- Modelled from the spec: horizontal Sobel response. -/
def sobelGx (g : Nat → Nat → Nat) (w h : Nat) (r c : Nat) : Int :=
  (sampleAt g w h ((r : Int) - 1) ((c : Int) + 1)
      + 2 * sampleAt g w h (r : Int) ((c : Int) + 1)
      + sampleAt g w h ((r : Int) + 1) ((c : Int) + 1))
    - (sampleAt g w h ((r : Int) - 1) ((c : Int) - 1)
      + 2 * sampleAt g w h (r : Int) ((c : Int) - 1)
      + sampleAt g w h ((r : Int) + 1) ((c : Int) - 1))

/-- Modelled from the spec: vertical Sobel response. -/
def sobelGy (g : Nat → Nat → Nat) (w h : Nat) (r c : Nat) : Int :=
  (sampleAt g w h ((r : Int) + 1) ((c : Int) - 1)
      + 2 * sampleAt g w h ((r : Int) + 1) (c : Int)
      + sampleAt g w h ((r : Int) + 1) ((c : Int) + 1))
    - (sampleAt g w h ((r : Int) - 1) ((c : Int) - 1)
      + 2 * sampleAt g w h ((r : Int) - 1) (c : Int)
      + sampleAt g w h ((r : Int) - 1) ((c : Int) + 1))

/-- Modelled from the spec: Sobel gradient magnitude as an unsigned
sixteen bit value. -/
def sobelMag (g : Nat → Nat → Nat) (w h : Nat) (r c : Nat) : Nat :=
  Nat.sqrt ((sobelGx g w h r c).natAbs ^ 2 + (sobelGy g w h r c).natAbs ^ 2) % 65536

/-- EnergyMap of one carving iteration: the sixteen bit Sobel magnitude of
the luminance buffer truncated to eight bits by a right shift by eight,
exactly the Luma sixteen to Luma eight conversion of the source. -/
def energyOf (img : PixelBuffer) : Nat → Nat → Nat :=
  fun r c => sobelMag (luma img) img.width img.height r c / 256

/-- Minimum of f over the admissible parent columns of column c: the
column itself, its left neighbour and its right neighbour, bounds
permitting. -/
def parentMin (f : Nat → Nat) (w c : Nat) : Nat :=
  if 0 < c then
    if c + 1 < w then min (min (f c) (f (c + 1))) (f (c - 1))
    else min (f c) (f (c - 1))
  else
    if c + 1 < w then min (f c) (f (c + 1))
    else f c

/-- Modelled from the spec: cumulative seam cost table of the dynamic
program; row zero carries the plain energy, every later cell adds the
minimum over its admissible parents. -/
def cumCost (e : Nat → Nat → Nat) (w : Nat) : Nat → Nat → Nat
  | 0, c => e 0 c
  | r + 1, c => e (r + 1) c + parentMin (cumCost e w r) w c

/-- Parent choice during backtracking, ties preferring the straight down
parent, then the left one, then the right one. -/
def parentOf (f : Nat → Nat) (w c : Nat) : Nat :=
  if f c = parentMin f w c then c
  else if 0 < c ∧ f (c - 1) = parentMin f w c then c - 1
  else c + 1

/-- First index below n at which f attains its minimum on that range. -/
def argminUpTo (f : Nat → Nat) : Nat → Nat
  | 0 => 0
  | 1 => 0
  | n + 2 =>
    if f (n + 1) < f (argminUpTo f (n + 1)) then n + 1 else argminUpTo f (n + 1)

/-- Column of the backtracked seam at distance d above the bottom row. -/
def seamDescend (e : Nat → Nat → Nat) (w h : Nat) : Nat → Nat
  | 0 => argminUpTo (cumCost e w (h - 1)) w
  | d + 1 => parentOf (cumCost e w (h - 1 - (d + 1))) w (seamDescend e w h d)

/-- Modelled from the spec: find_vertical_seam of the imageproc library,
the dynamic programming minimum cost vertical seam over the supplied
energy map, backtracked from the cheapest cell of the last row. -/
def find_vertical_seam (e : Nat → Nat → Nat) (w h : Nat) : Nat → Nat :=
  fun r => seamDescend e w h (h - 1 - r)

/-- Modelled from the spec: remove_vertical_seam of the imageproc library
deletes, in every row, exactly the pixel at the seam column of that row,
shifting the pixels to its right one column left; width shrinks by one,
height is unchanged. -/
def remove_vertical_seam (img : PixelBuffer) (seam : Nat → Nat) : PixelBuffer :=
  { width := img.width - 1
    height := img.height
    pix := fun r c ch =>
      if c < seam r then img.pix r c ch else img.pix r (c + 1) ch }

/-- Seam selected by one carving iteration of seam_carve_width: the energy
map is recomputed from the current buffer and handed to the seam search. -/
def chosenSeam (img : PixelBuffer) : Nat → Nat :=
  find_vertical_seam (energyOf img) img.width img.height

/-- One iteration of the carving loop of seam_carve_width. -/
def carveStep (img : PixelBuffer) : PixelBuffer :=
  remove_vertical_seam img (chosenSeam img)

/-- The carving loop: n iterations of carveStep. -/
def carveIter : Nat → PixelBuffer → PixelBuffer
  | 0, img => img
  | n + 1, img => carveIter n (carveStep img)

/-- Operation seam_carve_width from src/lume/rust/src/api/imageproc_ops.rs:
when the target is at least the current width the decoded buffer is re
encoded unchanged, otherwise the loop removes one seam per iteration,
current width minus target width times. -/
def seam_carve_width (image_bytes : Bytes) (new_width : Nat) : Except LumeError Bytes :=
  match load image_bytes with
  | .error e => .error e
  | .ok img =>
    match detect_format image_bytes with
    | .error e => .error e
    | .ok fmt =>
      if img.width ≤ new_width then .ok (encode img fmt)
      else .ok (encode (carveIter (img.width - new_width) img) fmt)

/-- Columns at most one apart: the eight connectivity condition between
the seam columns of adjacent rows. -/
abbrev adjCol (a b : Nat) : Prop := a ≤ b + 1 ∧ b ≤ a + 1

/-- Valid top to bottom eight connected vertical path through a w by h
grid: one column per row, in bounds, adjacent rows at most one column
apart. -/
def validSeamPath (w h : Nat) (p : Nat → Nat) : Prop :=
  (∀ r, r < h → p r < w) ∧ (∀ r, r + 1 < h → adjCol (p r) (p (r + 1)))

instance (w h : Nat) (p : Nat → Nat) : Decidable (validSeamPath w h p) :=
  decidable_of_iff
    ((∀ r, r < h → p r < w) ∧ (∀ r, r < h - 1 → adjCol (p r) (p (r + 1))))
    (by
      constructor
      · rintro ⟨h1, h2⟩
        exact ⟨h1, fun r hr => h2 r (by omega)⟩
      · rintro ⟨h1, h2⟩
        exact ⟨h1, fun r hr => h2 r (by omega)⟩)

/-- Total energy cost of a path: the sum of the energies of the visited
cells, one per row. -/
def pathCost (e : Nat → Nat → Nat) (h : Nat) (p : Nat → Nat) : Nat :=
  ∑ r ∈ Finset.range h, e r (p r)

/-- Detected container format of the bytes an operation returned. -/
def outputFormat (result : Except LumeError Bytes) : Except LumeError ImageFormat :=
  match result with
  | .error e => .error e
  | .ok bs => detect_format bs

/-- Width of the decoded buffer an operation returned, when it returned
one. -/
def resultWidth : Except LumeError Bytes → Option Nat
  | .ok (.valid _ b) => some b.width
  | _ => none

/-- Height of the decoded buffer an operation returned, when it returned
one. -/
def resultHeight : Except LumeError Bytes → Option Nat
  | .ok (.valid _ b) => some b.height
  | _ => none

/-- Names recognized by string_to_format, after lowercasing. -/
def recognizedFormatNames : List String :=
  ["png", "jpeg", "jpg", "gif", "webp", "bmp", "tiff", "tif", "ico"]

/-- Names recognized by the filter match of resize_with_filter, after
lowercasing. -/
def recognizedFilterNames : List String :=
  ["nearest", "triangle", "bilinear", "catmullrom", "cubic", "gaussian",
    "lanczos", "lanczos3"]

/-- Test fixture: a one by one buffer. -/
def imgOne : PixelBuffer := ⟨1, 1, fun _ _ _ => 0⟩

/-- Test fixture: a two by one buffer. -/
def imgW2 : PixelBuffer := ⟨2, 1, fun _ _ _ => 0⟩

/-- Test fixture: the two by one buffer as a PNG container. -/
def tbW2 : Bytes := Bytes.valid .Png imgW2

/-- Test fixture: a three by two buffer. -/
def imgThree : PixelBuffer := ⟨3, 2, fun _ _ _ => 0⟩

/-- Test fixture: the three by two buffer as a PNG container. -/
def tbThree : Bytes := Bytes.valid .Png imgThree

/-- Modelled from src helpers.rs encode: the encoding call of the source is
fallible and propagates the failures of the container writers of the image
library, which reject buffers of zero width or zero height; for positive
dimensions encoding succeeds with bytes carrying the requested format.
The total function named encode abstracts only the success case of this
call and is the convention used by the claims confined to positive
dimension buffers; this checked form carries the error path where it is
load bearing. -/
def encodeChecked (img : PixelBuffer) (fmt : ImageFormat) : Except LumeError Bytes :=
  if 0 < img.width ∧ 0 < img.height then .ok (encode img fmt)
  else .error .EncodeError

/-- Canvas and stamping loop of tile, as one named buffer: the blank
canvas of size width times cols by height times rows with the source
image stamped at every tile origin. -/
def tileStamped (img : PixelBuffer) (cols rows : Nat) : PixelBuffer :=
  (List.range rows).foldl (fun acc r => tileInner img cols r acc)
    { width := img.width * cols
      height := img.height * rows
      pix := fun _ _ _ => 0 }

/-- Operation tile embedded end to end with the fallible encoding call of
the source (helpers encode), for the invariant on buffers returned to the
caller: the stamped canvas reaches the caller only if the encoder accepts
it. -/
def tileChecked (image_bytes : Bytes) (cols rows : Nat) : Except LumeError Bytes :=
  match load image_bytes with
  | .error e => .error e
  | .ok img =>
    match detect_format image_bytes with
    | .error e => .error e
    | .ok fmt => encodeChecked (tileStamped img cols rows) fmt

/-- Operation create_blank embedded with the fallible encoding call of the
source. -/
def create_blankChecked (width height : Nat) (r g b a : Nat) : Except LumeError Bytes :=
  let img : PixelBuffer :=
    { width := width
      height := height
      pix := fun _ _ ch =>
        if ch = 0 then r else if ch = 1 then g else if ch = 2 then b else a }
  encodeChecked img ImageFormat.Png

/-- Property of an operation result: whenever the operation succeeded and
returned a buffer to the caller, that buffer has positive width and
positive height. -/
def succeedsWithPositiveDims (result : Except LumeError Bytes) : Prop :=
  ∀ (f2 : ImageFormat) (b : PixelBuffer),
    result = .ok (Bytes.valid f2 b) → 0 < b.width ∧ 0 < b.height

/-- Test fixture: the buffer create_blank builds at size five by six with
the all zero colour. -/
def blankFive : PixelBuffer :=
  ⟨5, 6, fun _ _ ch =>
    if ch = 0 then 0 else if ch = 1 then 0 else if ch = 2 then 0 else 0⟩

/-- Test fixture: the buffer a one by one tiling of the one by one image
stamps onto its canvas. -/
def tileOneOut : PixelBuffer := overlayAt ⟨1, 1, fun _ _ _ => 0⟩ imgOne 0 0

theorem parentMin_le (f : Nat → Nat) (w c c2 : Nat) (hc2 : c2 < w)
    (hadj : adjCol c2 c) : parentMin f w c ≤ f c2 := by
  obtain ⟨ha1, ha2⟩ := hadj
  unfold parentMin
  split_ifs with hc hw hw
  · have hcase : c2 + 1 = c ∨ c2 = c ∨ c2 = c + 1 := by omega
    rcases hcase with h | h | h
    · have hrw : c - 1 = c2 := by omega
      rw [hrw]
      exact min_le_right _ _
    · subst h
      exact le_trans (min_le_left _ _) (min_le_left _ _)
    · subst h
      exact le_trans (min_le_left _ _) (min_le_right _ _)
  · have hcase : c2 + 1 = c ∨ c2 = c := by omega
    rcases hcase with h | h
    · have hrw : c - 1 = c2 := by omega
      rw [hrw]
      exact min_le_right _ _
    · subst h
      exact min_le_left _ _
  · have hcase : c2 = c ∨ c2 = c + 1 := by omega
    rcases hcase with h | h
    · subst h
      exact min_le_left _ _
    · subst h
      exact min_le_right _ _
  · have hcase : c2 = c := by omega
    subst hcase
    exact le_refl _

theorem parentMin_choice (f : Nat → Nat) (w c : Nat) :
    parentMin f w c = f c ∨ (0 < c ∧ parentMin f w c = f (c - 1)) ∨
      (c + 1 < w ∧ parentMin f w c = f (c + 1)) := by
  unfold parentMin
  split_ifs with hc hw hw
  · rcases min_choice (min (f c) (f (c + 1))) (f (c - 1)) with h | h
    · rcases min_choice (f c) (f (c + 1)) with h2 | h2
      · left
        rw [h, h2]
      · right; right
        exact ⟨hw, by rw [h, h2]⟩
    · right; left
      exact ⟨hc, h⟩
  · rcases min_choice (f c) (f (c - 1)) with h | h
    · left
      exact h
    · right; left
      exact ⟨hc, h⟩
  · rcases min_choice (f c) (f (c + 1)) with h | h
    · left
      exact h
    · right; right
      exact ⟨hw, h⟩
  · left
    rfl

theorem parentOf_spec (f : Nat → Nat) (w c : Nat) (hc : c < w) :
    parentOf f w c < w ∧ adjCol (parentOf f w c) c ∧
      f (parentOf f w c) = parentMin f w c := by
  unfold parentOf
  split_ifs with h1 h2
  · exact ⟨hc, ⟨by omega, by omega⟩, h1⟩
  · obtain ⟨h2a, h2b⟩ := h2
    exact ⟨by omega, ⟨by omega, by omega⟩, h2b⟩
  · rcases parentMin_choice f w c with h | h | h
    · exact absurd h.symm h1
    · exact absurd ⟨h.1, h.2.symm⟩ h2
    · exact ⟨h.1, ⟨by omega, by omega⟩, h.2.symm⟩

theorem argminUpTo_lt (f : Nat → Nat) : ∀ n, 0 < n → argminUpTo f n < n := by
  intro n
  induction n with
  | zero => intro h; omega
  | succ m ih =>
    intro _
    cases m with
    | zero => simp [argminUpTo]
    | succ k =>
      simp only [argminUpTo]
      split_ifs with h
      · omega
      · exact Nat.lt_succ_of_lt (ih (by omega))

theorem argminUpTo_min (f : Nat → Nat) : ∀ n c, c < n → f (argminUpTo f n) ≤ f c := by
  intro n
  induction n with
  | zero => intro c hc; omega
  | succ m ih =>
    intro c hc
    cases m with
    | zero =>
      have hc0 : c = 0 := by omega
      subst hc0
      simp [argminUpTo]
    | succ k =>
      simp only [argminUpTo]
      rcases Nat.lt_or_ge c (k + 1) with h | h
      · have hic := ih c h
        split_ifs with hlt
        · exact le_trans (le_of_lt hlt) hic
        · exact hic
      · have hck : c = k + 1 := by omega
        subst hck
        split_ifs with hlt
        · exact le_refl _
        · omega

theorem pathCost_succ (e : Nat → Nat → Nat) (n : Nat) (p : Nat → Nat) :
    pathCost e (n + 1) p = pathCost e n p + e n (p n) := by
  simp [pathCost, Finset.sum_range_succ]

theorem cumCost_le_pathCost (e : Nat → Nat → Nat) (w h : Nat) (p : Nat → Nat)
    (hp : validSeamPath w h p) :
    ∀ r, r < h → cumCost e w r (p r) ≤ pathCost e (r + 1) p := by
  obtain ⟨hb, ha⟩ := hp
  intro r
  induction r with
  | zero =>
    intro _
    simp [cumCost, pathCost]
  | succ n ih =>
    intro hr
    have hn : n < h := by omega
    calc cumCost e w (n + 1) (p (n + 1))
        = e (n + 1) (p (n + 1)) + parentMin (cumCost e w n) w (p (n + 1)) := rfl
      _ ≤ e (n + 1) (p (n + 1)) + cumCost e w n (p n) := by
          have hpm := parentMin_le (cumCost e w n) w (p (n + 1)) (p n) (hb n hn) (ha n hr)
          omega
      _ ≤ e (n + 1) (p (n + 1)) + pathCost e (n + 1) p := by
          have := ih hn
          omega
      _ = pathCost e (n + 1 + 1) p := by
          rw [pathCost_succ e (n + 1) p]
          omega

theorem seamDescend_lt (e : Nat → Nat → Nat) (w h : Nat) (hw : 0 < w) :
    ∀ d, seamDescend e w h d < w := by
  intro d
  induction d with
  | zero => exact argminUpTo_lt _ w hw
  | succ n ih => exact (parentOf_spec _ w _ ih).1

theorem seamDescend_adj (e : Nat → Nat → Nat) (w h : Nat) (hw : 0 < w) (d : Nat) :
    adjCol (seamDescend e w h (d + 1)) (seamDescend e w h d) :=
  (parentOf_spec (cumCost e w (h - 1 - (d + 1))) w (seamDescend e w h d)
    (seamDescend_lt e w h hw d)).2.1

theorem seamDescend_cost_step (e : Nat → Nat → Nat) (w h : Nat) (hw : 0 < w)
    (n : Nat) (hn : n + 1 < h) :
    cumCost e w (h - 1 - n) (seamDescend e w h n)
      = e (h - 1 - n) (seamDescend e w h n)
        + cumCost e w (h - 1 - (n + 1)) (seamDescend e w h (n + 1)) := by
  have hr : h - 1 - n = (h - 2 - n) + 1 := by omega
  have hr2 : h - 1 - (n + 1) = h - 2 - n := by omega
  have hsd : seamDescend e w h (n + 1)
      = parentOf (cumCost e w (h - 2 - n)) w (seamDescend e w h n) := by
    show parentOf (cumCost e w (h - 1 - (n + 1))) w (seamDescend e w h n) = _
    rw [hr2]
  have hspec := parentOf_spec (cumCost e w (h - 2 - n)) w (seamDescend e w h n)
    (seamDescend_lt e w h hw n)
  rw [hr, hr2, hsd]
  show e ((h - 2 - n) + 1) _ + parentMin (cumCost e w (h - 2 - n)) w _ = _
  rw [hspec.2.2]

theorem seamDescend_cost (e : Nat → Nat → Nat) (w h : Nat) (hw : 0 < w) :
    ∀ d, d < h →
      cumCost e w (h - 1 - d) (seamDescend e w h d)
          + ∑ j ∈ Finset.range d, e (h - 1 - j) (seamDescend e w h j)
        = cumCost e w (h - 1) (seamDescend e w h 0) := by
  intro d
  induction d with
  | zero =>
    intro _
    simp
  | succ n ih =>
    intro hd
    have hn : n < h := by omega
    have hkey := seamDescend_cost_step e w h hw n hd
    have hsum : ∑ j ∈ Finset.range (n + 1), e (h - 1 - j) (seamDescend e w h j)
        = (∑ j ∈ Finset.range n, e (h - 1 - j) (seamDescend e w h j))
          + e (h - 1 - n) (seamDescend e w h n) := Finset.sum_range_succ _ _
    have hih := ih hn
    omega

theorem find_vertical_seam_valid (e : Nat → Nat → Nat) (w h : Nat)
    (hw : 0 < w) (hh : 0 < h) : validSeamPath w h (find_vertical_seam e w h) := by
  constructor
  · intro r hr
    exact seamDescend_lt e w h hw _
  · intro r hr
    show adjCol (seamDescend e w h (h - 1 - r)) (seamDescend e w h (h - 1 - (r + 1)))
    have hd : h - 1 - r = (h - 1 - (r + 1)) + 1 := by omega
    rw [hd]
    exact seamDescend_adj e w h hw (h - 1 - (r + 1))

theorem find_vertical_seam_cost (e : Nat → Nat → Nat) (w h : Nat)
    (hw : 0 < w) (hh : 0 < h) :
    pathCost e h (find_vertical_seam e w h)
      = cumCost e w (h - 1) (seamDescend e w h 0) := by
  obtain ⟨n, rfl⟩ : ∃ n, h = n + 1 := ⟨h - 1, by omega⟩
  have htel := seamDescend_cost e w (n + 1) hw n (by omega)
  simp only [Nat.add_sub_cancel] at htel ⊢
  have hnn : n - n = 0 := by omega
  rw [hnn] at htel
  have htel2 : e 0 (seamDescend e w (n + 1) n)
      + ∑ j ∈ Finset.range n, e (n - j) (seamDescend e w (n + 1) j)
      = cumCost e w n (seamDescend e w (n + 1) 0) := htel
  calc pathCost e (n + 1) (find_vertical_seam e w (n + 1))
      = ∑ r ∈ Finset.range (n + 1), e r (seamDescend e w (n + 1) (n - r)) := rfl
    _ = ∑ r ∈ Finset.range (n + 1),
          e (n - (n - r)) (seamDescend e w (n + 1) (n - r)) := by
        apply Finset.sum_congr rfl
        intro r hr
        have hr2 : r < n + 1 := Finset.mem_range.mp hr
        have hrr : n - (n - r) = r := by omega
        rw [hrr]
    _ = ∑ j ∈ Finset.range (n + 1), e (n - j) (seamDescend e w (n + 1) j) := by
        exact Finset.sum_range_reflect (fun j => e (n - j) (seamDescend e w (n + 1) j)) (n + 1)
    _ = (∑ j ∈ Finset.range n, e (n - j) (seamDescend e w (n + 1) j))
          + e (n - n) (seamDescend e w (n + 1) n) :=
        Finset.sum_range_succ (fun j => e (n - j) (seamDescend e w (n + 1) j)) n
    _ = cumCost e w n (seamDescend e w (n + 1) 0) := by
        rw [hnn]
        omega

theorem find_vertical_seam_min (e : Nat → Nat → Nat) (w h : Nat)
    (hw : 0 < w) (hh : 0 < h) (p : Nat → Nat) (hp : validSeamPath w h p) :
    pathCost e h (find_vertical_seam e w h) ≤ pathCost e h p := by
  have hcost := find_vertical_seam_cost e w h hw hh
  have hlast : p (h - 1) < w := hp.1 (h - 1) (by omega)
  have hmin : cumCost e w (h - 1) (seamDescend e w h 0)
      ≤ cumCost e w (h - 1) (p (h - 1)) :=
    argminUpTo_min (cumCost e w (h - 1)) w (p (h - 1)) hlast
  have hub := cumCost_le_pathCost e w h p hp (h - 1) (by omega)
  have hh1 : h - 1 + 1 = h := by omega
  rw [hh1] at hub
  omega

theorem carveStep_width (b : PixelBuffer) : (carveStep b).width = b.width - 1 := rfl

theorem carveStep_height (b : PixelBuffer) : (carveStep b).height = b.height := rfl

theorem carveIter_width (n : Nat) :
    ∀ img : PixelBuffer, (carveIter n img).width = img.width - n := by
  induction n with
  | zero =>
    intro img
    rfl
  | succ m ih =>
    intro img
    show (carveIter m (carveStep img)).width = img.width - (m + 1)
    rw [ih (carveStep img), carveStep_width]
    omega

theorem carveIter_height (n : Nat) :
    ∀ img : PixelBuffer, (carveIter n img).height = img.height := by
  induction n with
  | zero =>
    intro img
    rfl
  | succ m ih =>
    intro img
    show (carveIter m (carveStep img)).height = img.height
    rw [ih (carveStep img), carveStep_height]

theorem foldl_dims (g : PixelBuffer → Nat → PixelBuffer)
    (hg : ∀ b n, (g b n).width = b.width ∧ (g b n).height = b.height) :
    ∀ (l : List Nat) (acc : PixelBuffer),
      (l.foldl g acc).width = acc.width ∧ (l.foldl g acc).height = acc.height := by
  intro l
  induction l with
  | nil =>
    intro acc
    exact ⟨rfl, rfl⟩
  | cons x xs ih =>
    intro acc
    have h1 := hg acc x
    have h2 := ih (g acc x)
    simp only [List.foldl]
    exact ⟨h2.1.trans h1.1, h2.2.trans h1.2⟩

theorem tileInner_dims (img : PixelBuffer) (cols r : Nat) (acc : PixelBuffer) :
    (tileInner img cols r acc).width = acc.width ∧
      (tileInner img cols r acc).height = acc.height :=
  foldl_dims (fun acc2 c =>
      overlayAt acc2 img ((c * img.width : Nat) : Int)
        ((r * img.height : Nat) : Int))
    (fun b2 m => ⟨rfl, rfl⟩) (List.range cols) acc

theorem tile_dims (fmt : ImageFormat) (img : PixelBuffer) (cols rows : Nat) :
    resultWidth (tile (Bytes.valid fmt img) cols rows) = some (img.width * cols) ∧
      resultHeight (tile (Bytes.valid fmt img) cols rows) = some (img.height * rows) := by
  have hstamp := foldl_dims (fun acc r => tileInner img cols r acc)
    (fun b n => tileInner_dims img cols n b) (List.range rows)
    { width := img.width * cols, height := img.height * rows, pix := fun _ _ _ => 0 }
  constructor
  · simp only [tile, load, detect_format, encode, resultWidth]
    rw [hstamp.1]
  · simp only [tile, load, detect_format, encode, resultHeight]
    rw [hstamp.2]

theorem tileStamped_dims (img : PixelBuffer) (cols rows : Nat) :
    (tileStamped img cols rows).width = img.width * cols ∧
      (tileStamped img cols rows).height = img.height * rows :=
  foldl_dims (fun acc r => tileInner img cols r acc)
    (fun b n => tileInner_dims img cols n b) (List.range rows)
    { width := img.width * cols, height := img.height * rows, pix := fun _ _ _ => 0 }

theorem encodeChecked_positive (img : PixelBuffer) (fmt : ImageFormat) :
    succeedsWithPositiveDims (encodeChecked img fmt) := by
  intro f2 b hb
  unfold encodeChecked at hb
  by_cases hdim : 0 < img.width ∧ 0 < img.height
  · rw [if_pos hdim] at hb
    unfold encode at hb
    injection hb with hb2
    injection hb2 with hf hi
    subst hi
    exact hdim
  · rw [if_neg hdim] at hb
    exact Except.noConfusion hb

theorem tileChecked_dims (fmt : ImageFormat) (img : PixelBuffer) (cols rows : Nat)
    (hw : 0 < img.width) (hh : 0 < img.height) (hc : 0 < cols) (hr : 0 < rows) :
    resultWidth (tileChecked (Bytes.valid fmt img) cols rows)
        = some (img.width * cols) ∧
      resultHeight (tileChecked (Bytes.valid fmt img) cols rows)
        = some (img.height * rows) := by
  have hs := tileStamped_dims img cols rows
  have hpos : 0 < (tileStamped img cols rows).width ∧
      0 < (tileStamped img cols rows).height := by
    rw [hs.1, hs.2]
    exact ⟨Nat.mul_pos hw hc, Nat.mul_pos hh hr⟩
  constructor
  · simp only [tileChecked, load, detect_format, encodeChecked, if_pos hpos]
    simp only [encode, resultWidth]
    rw [hs.1]
  · simp only [tileChecked, load, detect_format, encodeChecked, if_pos hpos]
    simp only [encode, resultHeight]
    rw [hs.2]

/-- Claim C1: for every decodable input of width w and every target width,
a target below w yields an output of decoded width exactly the target and
unchanged height, produced by w minus target carving iterations, each of
which removes one seam and so shrinks the width by exactly one; a target
of at least w returns the decoded buffer unchanged. -/
theorem seam_carve_width_dims (image_bytes : Bytes) (new_width : Nat)
    (fmt : ImageFormat) (img : PixelBuffer) (hload : load image_bytes = .ok img)
    (hfmt : detect_format image_bytes = .ok fmt) :
    (new_width < img.width →
        seam_carve_width image_bytes new_width
            = .ok (encode (carveIter (img.width - new_width) img) fmt) ∧
          (carveIter (img.width - new_width) img).width = new_width ∧
          (carveIter (img.width - new_width) img).height = img.height) ∧
      (img.width ≤ new_width →
        seam_carve_width image_bytes new_width = .ok (encode img fmt)) ∧
      (∀ b : PixelBuffer, (carveStep b).width = b.width - 1 ∧
        (carveStep b).height = b.height) := by
  refine ⟨?_, ?_, fun b => ⟨rfl, rfl⟩⟩
  · intro hlt
    refine ⟨?_, ?_, ?_⟩
    · simp only [seam_carve_width, hload, hfmt]
      rw [if_neg (by omega)]
    · rw [carveIter_width]
      omega
    · exact carveIter_height _ _
  · intro hge
    simp only [seam_carve_width, hload, hfmt]
    rw [if_pos hge]

/-- Witness for claim C1 at a three by two PNG buffer carved to width two. -/
theorem seam_carve_width_dims_witness :
    (load tbThree = .ok imgThree ∧ detect_format tbThree = .ok ImageFormat.Png ∧
        2 < imgThree.width) ∧
      (seam_carve_width tbThree 2
          = .ok (encode (carveIter (imgThree.width - 2) imgThree) ImageFormat.Png) ∧
        (carveIter (imgThree.width - 2) imgThree).width = 2 ∧
        (carveIter (imgThree.width - 2) imgThree).height = imgThree.height ∧
        (carveStep imgThree).width = imgThree.width - 1) := by
  have H := seam_carve_width_dims tbThree 2 ImageFormat.Png imgThree rfl rfl
  have H1 := H.1 (by decide)
  exact ⟨⟨rfl, rfl, by decide⟩, H1.1, H1.2.1, H1.2.2, (H.2.2 imgThree).1⟩

/-- Claim C2: the code of seam_carve_width contains no zero target
validation at all.  At target width zero on a decodable two by one image
the call does not fail with InvalidDimensionError; it runs one carving
iteration per column and hands a zero width buffer to the encoder. -/
theorem seam_carve_width_zero_target :
    seam_carve_width tbW2 0 = .ok (encode (carveIter 2 imgW2) ImageFormat.Png) ∧
      (carveIter 2 imgW2).width = 0 := by
  constructor
  · rfl
  · decide

/-- Claim C3: in every carving iteration the chosen seam is a valid eight
connected top to bottom path and its total cost over the energy map of the
current buffer is at most the cost of every other valid path; the removed
seam is exactly the chosen one. -/
theorem chosen_seam_minimal (img : PixelBuffer) (hw : 0 < img.width)
    (hh : 0 < img.height) (p : Nat → Nat)
    (hp : validSeamPath img.width img.height p) :
    validSeamPath img.width img.height (chosenSeam img) ∧
      pathCost (energyOf img) img.height (chosenSeam img)
          ≤ pathCost (energyOf img) img.height p ∧
      carveStep img = remove_vertical_seam img (chosenSeam img) :=
  ⟨find_vertical_seam_valid (energyOf img) img.width img.height hw hh,
    find_vertical_seam_min (energyOf img) img.width img.height hw hh p hp, rfl⟩

/-- Witness for claim C3 on the two by one buffer against the constant
column one path. -/
theorem chosen_seam_minimal_witness :
    (0 < imgW2.width ∧ 0 < imgW2.height ∧
        validSeamPath imgW2.width imgW2.height (fun _ => 1)) ∧
      pathCost (energyOf imgW2) imgW2.height (chosenSeam imgW2)
        ≤ pathCost (energyOf imgW2) imgW2.height (fun _ => 1) :=
  ⟨⟨by decide, by decide, by decide⟩,
    (chosen_seam_minimal imgW2 (by decide) (by decide) (fun _ => 1) (by decide)).2.1⟩

/-- Claim C4: get_pixel fails with OutOfBoundsError exactly outside the
grid of the decoded image and returns the four channels of the requested
pixel inside it. -/
theorem get_pixel_bounds (image_bytes : Bytes) (x y : Nat) (img : PixelBuffer)
    (hload : load image_bytes = .ok img) :
    ((img.width ≤ x ∨ img.height ≤ y) →
        get_pixel image_bytes x y = .error .OutOfBoundsError) ∧
      (x < img.width → y < img.height →
        get_pixel image_bytes x y
          = .ok ⟨img.pix y x 0, img.pix y x 1, img.pix y x 2, img.pix y x 3⟩) := by
  constructor
  · intro hout
    simp only [get_pixel, hload]
    rw [if_neg (by omega)]
  · intro hx hy
    simp only [get_pixel, hload]
    rw [if_pos ⟨hx, hy⟩]

/-- Witness for claim C4 at coordinate (width, 0) of a two by one image,
and at the inner coordinate (0, 0). -/
theorem get_pixel_bounds_witness :
    (load tbW2 = .ok imgW2 ∧ (imgW2.width ≤ 2 ∨ imgW2.height ≤ 0) ∧
        0 < imgW2.width ∧ 0 < imgW2.height) ∧
      (get_pixel tbW2 2 0 = .error LumeError.OutOfBoundsError ∧
        get_pixel tbW2 0 0
          = .ok ⟨imgW2.pix 0 0 0, imgW2.pix 0 0 1, imgW2.pix 0 0 2, imgW2.pix 0 0 3⟩) :=
  ⟨⟨rfl, by decide, by decide, by decide⟩,
    (get_pixel_bounds tbW2 2 0 imgW2 rfl).1 (by decide),
    (get_pixel_bounds tbW2 0 0 imgW2 rfl).2 (by decide) (by decide)⟩

/-- Claim C5: every embedded operation that does not explicitly convert
format returns bytes whose detected container format equals the detected
format of its input. -/
theorem format_preserved (image_bytes : Bytes) (fmt : ImageFormat)
    (hfmt : detect_format image_bytes = .ok fmt) :
    (∀ w h k, outputFormat (resize image_bytes w h k) = .ok fmt) ∧
      (∀ w h s, outputFormat (resize_with_filter image_bytes w h s) = .ok fmt) ∧
      (∀ d, outputFormat (rotate image_bytes d) = .ok fmt) ∧
      (∀ cols rows, outputFormat (tile image_bytes cols rows) = .ok fmt) ∧
      (∀ nw, outputFormat (seam_carve_width image_bytes nw) = .ok fmt) := by
  cases image_bytes with
  | invalid => simp [detect_format] at hfmt
  | valid f img =>
    have hf : f = fmt := by
      simpa [detect_format] using hfmt
    subst hf
    refine ⟨fun w h k => rfl, fun w h s => rfl, fun d => rfl,
      fun cols rows => rfl, fun nw => ?_⟩
    show outputFormat
        (if img.width ≤ nw then Except.ok (encode img f)
          else Except.ok (encode (carveIter (img.width - nw) img) f)) = Except.ok f
    split
    · rfl
    · rfl

/-- Witness for claim C5 on a PNG input across the embedded operations. -/
theorem format_preserved_witness :
    detect_format tbW2 = .ok ImageFormat.Png ∧
      (outputFormat (resize tbW2 5 5 true) = .ok ImageFormat.Png ∧
        outputFormat (rotate tbW2 90) = .ok ImageFormat.Png ∧
        outputFormat (tile tbW2 2 2) = .ok ImageFormat.Png ∧
        outputFormat (seam_carve_width tbW2 1) = .ok ImageFormat.Png) :=
  ⟨rfl,
    (format_preserved tbW2 ImageFormat.Png rfl).1 5 5 true,
    (format_preserved tbW2 ImageFormat.Png rfl).2.2.1 90,
    (format_preserved tbW2 ImageFormat.Png rfl).2.2.2.1 2 2,
    (format_preserved tbW2 ImageFormat.Png rfl).2.2.2.2 1⟩

/-- Claim C6: the format name mapping is a closed case insensitive
bijection up to the documented aliases: naming then parsing is the
identity on the seven supported tags, jpg and jpeg agree, tif and tiff
agree, and every string whose lowercasing is outside the recognized set
fails with UnsupportedFormatError. -/
theorem format_name_round_trip :
    (string_to_format (format_to_string .Png) = .ok .Png ∧
      string_to_format (format_to_string .Jpeg) = .ok .Jpeg ∧
      string_to_format (format_to_string .Gif) = .ok .Gif ∧
      string_to_format (format_to_string .WebP) = .ok .WebP ∧
      string_to_format (format_to_string .Bmp) = .ok .Bmp ∧
      string_to_format (format_to_string .Tiff) = .ok .Tiff ∧
      string_to_format (format_to_string .Ico) = .ok .Ico) ∧
    (string_to_format "jpg" = string_to_format "jpeg" ∧
      string_to_format "tif" = string_to_format "tiff") ∧
    (string_to_format "PNG" = .ok .Png ∧ string_to_format "TiFf" = .ok .Tiff) ∧
    (∀ s : String, lowerStr s ∉ recognizedFormatNames →
      string_to_format s = .error (.UnsupportedFormatError (lowerStr s))) := by
  refine ⟨⟨rfl, rfl, rfl, rfl, rfl, rfl, rfl⟩, ⟨rfl, rfl⟩, ⟨rfl, rfl⟩, ?_⟩
  intro s hs
  simp only [recognizedFormatNames, List.mem_cons, List.mem_singleton,
    not_or] at hs
  obtain ⟨h1, h2, h3, h4, h5, h6, h7, h8, h9, _⟩ := hs
  simp only [string_to_format, if_neg h1, if_neg (not_or.mpr ⟨h2, h3⟩),
    if_neg h4, if_neg h5, if_neg h6, if_neg (not_or.mpr ⟨h7, h8⟩), if_neg h9]

/-- Witness for claim C6 at the unrecognized name avif. -/
theorem format_name_round_trip_witness :
    lowerStr "avif" ∉ recognizedFormatNames ∧
      string_to_format "avif" = .error (.UnsupportedFormatError (lowerStr "avif")) :=
  ⟨by decide, format_name_round_trip.2.2.2 "avif" (by decide)⟩

/-- Claim C7 counterexample: get_image_info holds a third default value
substitution beyond the two designed fallbacks.  When the detected format
lies outside the closed seven tag name mapping, the call succeeds and the
format field is silently replaced by the default string unknown instead of
the call surfacing an error, contradicting the claim that exactly two
fallbacks exist and that no operation substitutes a default for a failed
format resolution. -/
theorem third_fallback_cex :
    get_image_info (Bytes.valid .other imgOne) = .ok ⟨1, 1, "unknown", 4⟩ ∧
      format_to_string .other = "unknown" :=
  ⟨rfl, rfl⟩

/-- Claim C7 amended: stage failures are surfaced with no local recovery
except three fallbacks: the unrecognized resize filter resolving to
Lanczos3, the rotate pass through for degrees not a proper quarter turn,
and the get_image_info substitution of the name unknown for a detected
format outside the supported seven; failures of decode, detection and name
resolution otherwise abort the call with that stage its error. -/
theorem error_propagation_amended :
    (∀ s : String, lowerStr s ∉ recognizedFilterNames → parseFilter s = .Lanczos3) ∧
      (∀ (image2 : Bytes) (w h : Nat) (s : String),
        lowerStr s ∉ recognizedFilterNames →
        resize_with_filter image2 w h s = resize_with_filter image2 w h "lanczos") ∧
      (∀ (image2 : Bytes) (d : Nat) (i : PixelBuffer) (f : ImageFormat),
        load image2 = .ok i → detect_format image2 = .ok f →
        d % 360 ≠ 90 → d % 360 ≠ 180 → d % 360 ≠ 270 →
        rotate image2 d = .ok (encode i f)) ∧
      (resize Bytes.invalid 1 1 true = .error .DecodeError ∧
        resize_with_filter Bytes.invalid 1 1 "nearest" = .error .DecodeError ∧
        rotate Bytes.invalid 90 = .error .DecodeError ∧
        tile Bytes.invalid 1 1 = .error .DecodeError ∧
        seam_carve_width Bytes.invalid 1 = .error .DecodeError ∧
        get_pixel Bytes.invalid 0 0 = .error .DecodeError ∧
        get_image_info Bytes.invalid = .error .DecodeError ∧
        convert_format tbW2 "avif"
          = .error (.UnsupportedFormatError (lowerStr "avif"))) ∧
      (∀ i : PixelBuffer, get_image_info (Bytes.valid .other i)
        = .ok ⟨i.width, i.height, "unknown", byteSize (Bytes.valid .other i)⟩) := by
  have hA : ∀ s : String, lowerStr s ∉ recognizedFilterNames →
      parseFilter s = .Lanczos3 := by
    intro s hs
    simp only [recognizedFilterNames, List.mem_cons, List.mem_singleton,
      not_or] at hs
    obtain ⟨h1, h2, h3, h4, h5, h6, h7, h8, _⟩ := hs
    simp only [parseFilter, if_neg h1, if_neg (not_or.mpr ⟨h2, h3⟩),
      if_neg (not_or.mpr ⟨h4, h5⟩), if_neg h6, if_neg (not_or.mpr ⟨h7, h8⟩)]
  refine ⟨hA, ?_, ?_, ⟨rfl, rfl, rfl, rfl, rfl, rfl, rfl, rfl⟩, fun i => rfl⟩
  · intro image2 w h s hs
    cases image2 with
    | invalid => rfl
    | valid f i =>
      simp only [resize_with_filter, load, detect_format]
      rw [hA s hs]
      rfl
  · intro image2 d i f hl hf h1 h2 h3
    simp only [rotate, hl, hf]
    rw [if_neg h1, if_neg h2, if_neg h3]

/-- Witness for the amended claim C7 at the unrecognized filter name box
and a forty five degree rotation. -/
theorem error_propagation_amended_witness :
    (lowerStr "box" ∉ recognizedFilterNames ∧ load tbW2 = .ok imgW2 ∧
        detect_format tbW2 = .ok ImageFormat.Png ∧ 45 % 360 ≠ 90 ∧
        45 % 360 ≠ 180 ∧ 45 % 360 ≠ 270) ∧
      (parseFilter "box" = .Lanczos3 ∧
        resize_with_filter tbW2 4 4 "box" = resize_with_filter tbW2 4 4 "lanczos" ∧
        rotate tbW2 45 = .ok (encode imgW2 ImageFormat.Png)) :=
  ⟨⟨by decide, rfl, rfl, by decide, by decide, by decide⟩,
    error_propagation_amended.1 "box" (by decide),
    error_propagation_amended.2.1 tbW2 4 4 "box" (by decide),
    error_propagation_amended.2.2.1 tbW2 45 imgW2 ImageFormat.Png rfl rfl
      (by decide) (by decide) (by decide)⟩

/-- Claim C8: rotate normalizes the degree argument modulo 360, applies
the matching quarter turn for the residues 90, 180 and 270, and for every
other residue, zero included, returns the decoded buffer pixel identical
and unchanged. -/
theorem rotate_normalization (image_bytes : Bytes) (degrees : Nat)
    (img : PixelBuffer) (fmt : ImageFormat) (hload : load image_bytes = .ok img)
    (hfmt : detect_format image_bytes = .ok fmt) :
    (degrees % 360 = 90 →
        rotate image_bytes degrees = .ok (encode (rotate90 img) fmt)) ∧
      (degrees % 360 = 180 →
        rotate image_bytes degrees = .ok (encode (rotate180 img) fmt)) ∧
      (degrees % 360 = 270 →
        rotate image_bytes degrees = .ok (encode (rotate270 img) fmt)) ∧
      (degrees % 360 ≠ 90 → degrees % 360 ≠ 180 → degrees % 360 ≠ 270 →
        rotate image_bytes degrees = .ok (encode img fmt)) := by
  refine ⟨?_, ?_, ?_, ?_⟩
  · intro h90
    simp only [rotate, hload, hfmt]
    rw [if_pos h90]
  · intro h180
    simp only [rotate, hload, hfmt]
    rw [if_neg (by omega), if_pos h180]
  · intro h270
    simp only [rotate, hload, hfmt]
    rw [if_neg (by omega), if_neg (by omega), if_pos h270]
  · intro h1 h2 h3
    simp only [rotate, hload, hfmt]
    rw [if_neg h1, if_neg h2, if_neg h3]

/-- Witness for claim C8: rotating the two by one PNG by the full turn of
360 degrees returns a buffer identical to the decoded input. -/
theorem rotate_normalization_witness :
    (load tbW2 = .ok imgW2 ∧ detect_format tbW2 = .ok ImageFormat.Png ∧
        360 % 360 ≠ 90 ∧ 360 % 360 ≠ 180 ∧ 360 % 360 ≠ 270) ∧
      rotate tbW2 360 = .ok (encode imgW2 ImageFormat.Png) :=
  ⟨⟨rfl, rfl, by decide, by decide, by decide⟩,
    (rotate_normalization tbW2 360 imgW2 ImageFormat.Png rfl rfl).2.2.2
      (by decide) (by decide) (by decide)⟩

/-- Claim C9: every pixel buffer an operation returns to the caller, for
all parameter values under which the operation succeeds, has positive
width and positive height.  In the source, every operation hands its
result buffer to the fallible helpers encode call, whose container
writers reject zero width and zero height buffers, so a successful call
never carries a degenerate buffer out; tile in particular, embedded end
to end with that fallible call, returns a buffer only with positive
dimensions for whatever cols and rows it succeeds on (at cols zero the
encoder rejects the zero width canvas and the call returns no buffer),
and create_blank likewise; for positive inputs and parameters tile does
succeed, with dimensions width times cols by height times rows.  The
backing store of every returned buffer holds width times height times
four subpixels by construction of the RGBA grid. -/
theorem returned_buffer_dims_positive :
    (∀ (img : PixelBuffer) (fmt : ImageFormat),
        succeedsWithPositiveDims (encodeChecked img fmt)) ∧
      (∀ (image2 : Bytes) (cols rows : Nat),
        succeedsWithPositiveDims (tileChecked image2 cols rows)) ∧
      (∀ (w2 h2 r g b a : Nat),
        succeedsWithPositiveDims (create_blankChecked w2 h2 r g b a)) ∧
      (∀ (fmt : ImageFormat) (img : PixelBuffer) (cols rows : Nat),
        0 < img.width → 0 < img.height → 0 < cols → 0 < rows →
        resultWidth (tileChecked (Bytes.valid fmt img) cols rows)
            = some (img.width * cols) ∧
          resultHeight (tileChecked (Bytes.valid fmt img) cols rows)
            = some (img.height * rows)) ∧
      tileChecked (Bytes.valid ImageFormat.Png imgOne) 0 1
        = .error .EncodeError := by
  refine ⟨encodeChecked_positive, ?_, ?_, ?_, rfl⟩
  · intro image2 cols rows
    cases image2 with
    | invalid =>
      intro f2 b hb
      exact Except.noConfusion hb
    | valid f i => exact encodeChecked_positive (tileStamped i cols rows) f
  · intro w2 h2 r g b a
    exact encodeChecked_positive _ ImageFormat.Png
  · intro fmt img cols rows hw hh hc hr
    exact tileChecked_dims fmt img cols rows hw hh hc hr

/-- Witness for claim C9: a five by six blank image and a one by one
tiling both succeed, and the theorem yields the positive dimensions of
the very buffers they return. -/
theorem returned_buffer_dims_positive_witness :
    (create_blankChecked 5 6 0 0 0 0 = .ok (Bytes.valid ImageFormat.Png blankFive) ∧
        tileChecked (Bytes.valid ImageFormat.Png imgOne) 1 1
          = .ok (Bytes.valid ImageFormat.Png tileOneOut)) ∧
      ((0 < blankFive.width ∧ 0 < blankFive.height) ∧
        (0 < tileOneOut.width ∧ 0 < tileOneOut.height)) :=
  ⟨⟨rfl, rfl⟩,
    returned_buffer_dims_positive.2.2.1 5 6 0 0 0 0 ImageFormat.Png blankFive rfl,
    returned_buffer_dims_positive.2.1 (Bytes.valid ImageFormat.Png imgOne) 1 1
      ImageFormat.Png tileOneOut rfl⟩

/-- Claim C10: create_blank encodes its buffer as PNG for every choice of
dimensions and colour, a fixed constant output format independent of all
arguments. -/
theorem create_blank_png (w h r g b a : Nat) :
    outputFormat (create_blank w h r g b a) = .ok ImageFormat.Png := rfl

end Lume
